import Mathlib

/-!
Verification of the bandcamp-parser repository against its specification.

The development shallowly embeds the Python sources:
* `src/database.py` (the dedupe/record store) as a pure state-passing model
  over a list of rows,
* `src/telegram_bot.py` (`_send_with_retry`) as a fuel-indexed retry loop
  driven by an outcome oracle,
* `src/parser.py` (`_parse_release_link`, `get_releases_by_tag`) over an
  explicit DOM-anchor structure and character-list string helpers,
* `src/main.py` (`_process_release`, `_process_blacklist`,
  `_process_main_tags`, `run_parsing`) as a fold over fetch/delivery oracles.

Wall-clock time is modelled by an explicit integer parameter `now`
(seconds, so `timedelta(days=d)` is `d * 86400`).  SQLite rows are lists in
insertion order; `AUTOINCREMENT` is a `next_id` counter; `NULL` columns are
`Option`.  Python string helpers that matter to the claims are re-implemented
on character lists so that every definition evaluates by kernel reduction.
-/

/-! ## Python string helpers (character-list models) -/

/-- Whitespace class of Python's `str.strip` / regex `\s` (ASCII part). -/
def isPySpace (c : Char) : Bool :=
  c = ' ' || c = '\t' || c = '\n' || c = '\r' || c = '\x0b' || c = '\x0c'

/-- Models Python `str.strip()`. -/
def pyStrip (s : String) : String :=
  String.mk (((s.data.dropWhile isPySpace).reverse.dropWhile isPySpace).reverse)

/-- Substring containment on character lists (models Python `in` on `str`). -/
def listContainsSub (pat : List Char) : List Char → Bool
  | [] => pat.isEmpty
  | c :: cs => pat.isPrefixOf (c :: cs) || listContainsSub pat cs

/-- Models Python `pat in s` for strings. -/
def strContainsSub (s pat : String) : Bool :=
  listContainsSub pat.data s.data

/-- Models Python `s.startswith(p)`. -/
def strStartsWith (s p : String) : Bool :=
  p.data.isPrefixOf s.data

/-- Models Python `s.lower()` (ASCII case folding). -/
def lowerAscii (s : String) : String :=
  String.mk (s.data.map Char.toLower)

/-- Models Python `s.split('?')[0]` — the prefix before the first `'?'`. -/
def beforeQuery (s : String) : String :=
  String.mk (s.data.takeWhile (fun c => !(c = '?')))

/-- Models Python `s.replace(' ', '-')` (single-character pattern). -/
def hyphenate (s : String) : String :=
  String.mk (s.data.map (fun c => if c = ' ' then '-' else c))

/-! ## Dedup Store — embedding of `src/database.py` (class `Database`)

A store state is the list of rows of the `releases` table in insertion
order together with the next `AUTOINCREMENT` value.  Every operation is the
body of the corresponding Python method; SQL statements are translated
clause by clause.
-/

/-- Row of the `releases` table (`ReleaseRecord` dataclass in `database.py`). -/
structure ReleaseRecord where
  id : Nat
  release_url : String
  title : String
  artist : String
  tags : Option String
  cover_url : Option String
  description : Option String
  created_at : Int
  sent_at : Option Int
deriving DecidableEq

/-- State of the SQLite store managed by `Database`. -/
structure Database where
  releases : List ReleaseRecord
  next_id : Nat
deriving DecidableEq

/-- `Database.exists` / `release_exists`:
`SELECT 1 FROM releases WHERE release_url = ? LIMIT 1` is non-empty. -/
def Database.release_exists (db : Database) (release_url : String) : Bool :=
  db.releases.any (fun r => r.release_url == release_url)

/-- Row built by the `INSERT` statement of `Database.add`: tags are
serialized by `",".join(tags) if tags else None` (the empty list is falsy),
`created_at` defaults to the current time and `sent_at` to `NULL`. -/
def mkRow (db : Database) (now : Int) (release_url title artist : String)
    (tags : Option (List String)) (cover_url : Option String)
    (descr : Option String) : ReleaseRecord where
  id := db.next_id
  release_url := release_url
  title := title
  artist := artist
  tags :=
    match tags with
    | none => none
    | some [] => none
    | some ts => some (String.intercalate "," ts)
  cover_url := cover_url
  description := descr
  created_at := now
  sent_at := none

/-- `Database.add`: return `false` without touching the store when the url
already exists; otherwise `INSERT` one row, commit, and return `true`. -/
def Database.add (db : Database) (now : Int) (release_url title artist : String)
    (tags : Option (List String)) (cover_url : Option String)
    (descr : Option String) : Database × Bool :=
  if db.release_exists release_url then (db, false)
  else
    ({ releases := db.releases ++
        [mkRow db now release_url title artist tags cover_url descr],
       next_id := db.next_id + 1 }, true)

/-- Per-row effect of the `UPDATE` in `Database.mark_sent`: set
`sent_at = now` on a row whose `release_url` matches, leave others alone.
The update is unconditional on the current `sent_at`. -/
def markUpd (now : Int) (url : String) (r : ReleaseRecord) : ReleaseRecord :=
  if r.release_url == url then { r with sent_at := some now } else r

/-- `Database.mark_sent`:
`UPDATE releases SET sent_at = ? WHERE release_url = ?` with
`datetime.now()` as the new value. -/
def Database.mark_sent (db : Database) (now : Int) (release_url : String) :
    Database :=
  { db with releases := db.releases.map (markUpd now release_url) }

/-- `Database.cleanup`: `return 0` when `days <= 0`; otherwise
`DELETE FROM releases WHERE created_at < ?` with cutoff
`datetime.now() - timedelta(days=days)` and return the rowcount. -/
def Database.cleanup (db : Database) (now : Int) (days : Int) : Database × Nat :=
  if days ≤ 0 then (db, 0)
  else
    let cutoff := now - days * 86400
    ({ db with
        releases := db.releases.filter (fun r => !decide (r.created_at < cutoff)) },
     db.releases.countP (fun r => decide (r.created_at < cutoff)))

/-- Stable insertion (ascending `created_at`) used to model
`ORDER BY created_at ASC`. -/
def insertByCreated (r : ReleaseRecord) : List ReleaseRecord → List ReleaseRecord
  | [] => [r]
  | x :: xs =>
    if r.created_at < x.created_at then r :: x :: xs else x :: insertByCreated r xs

/-- Sort rows by ascending `created_at` (model of `ORDER BY created_at ASC`). -/
def sortByCreated (l : List ReleaseRecord) : List ReleaseRecord :=
  l.foldr insertByCreated []

/-- `Database.get_unsent_releases`:
`SELECT * FROM releases WHERE sent_at IS NULL ORDER BY created_at ASC`. -/
def Database.get_unsent_releases (db : Database) : List ReleaseRecord :=
  sortByCreated (db.releases.filter (fun r => r.sent_at == none))

/-- Number of rows carrying a given url. -/
def Database.count_url (db : Database) (url : String) : Nat :=
  db.releases.countP (fun r => r.release_url == url)

/-! ## Concrete fixtures used by witnesses and counterexamples -/

/-- A pending row for url `"u"`. -/
def rowU : ReleaseRecord where
  id := 1
  release_url := "u"
  title := "t"
  artist := "a"
  tags := none
  cover_url := none
  description := none
  created_at := 0
  sent_at := none

/-- A store holding exactly `rowU`. -/
def dbU : Database where
  releases := [rowU]
  next_id := 2

/-- The empty store. -/
def dbEmpty : Database where
  releases := []
  next_id := 1

/-- An old, already-sent row (for the retention witness). -/
def rowOld : ReleaseRecord where
  id := 1
  release_url := "old"
  title := "t"
  artist := "a"
  tags := none
  cover_url := none
  description := none
  created_at := 0
  sent_at := some 1

/-- A fresh, pending row (for the retention witness). -/
def rowNew : ReleaseRecord where
  id := 2
  release_url := "new"
  title := "t"
  artist := "a"
  tags := none
  cover_url := none
  description := none
  created_at := 1000000
  sent_at := none

/-- A store holding `rowOld` and `rowNew`. -/
def dbOldNew : Database where
  releases := [rowOld, rowNew]
  next_id := 3

/-- An already-sent row (for the listPending witness). -/
def rowSent : ReleaseRecord where
  id := 1
  release_url := "u"
  title := "t"
  artist := "a"
  tags := none
  cover_url := none
  description := none
  created_at := 0
  sent_at := some 4

/-- A store holding exactly `rowSent`. -/
def dbSent : Database where
  releases := [rowSent]
  next_id := 2

/-! ## Delivery Channel — embedding of `TelegramBot._send_with_retry`
(`src/telegram_bot.py`)

One call of the wrapped send function is abstracted as an oracle
`send : Nat → SendOutcome` giving the outcome class of each attempt
(0-indexed).  The loop `for attempt in range(MAX_RETRIES)` is encoded with a
fuel argument counting the attempts still allowed, so that
`attempt + fuel = MAX_RETRIES` throughout; the Python guard
`attempt < MAX_RETRIES - 1` is then exactly `fuel ≠ 1`, i.e. `fuel' ≠ 0`
after peeling one attempt.  The wrapper returns the boolean outcome together
with the number of attempts made and the list of back-off waits (seconds)
performed between attempts.
-/

/-- Outcome class of one send attempt, matching the `except` clauses of
`_send_with_retry`: `timedOut` covers `TimedOut`, `NetworkError` and
`asyncio.TimeoutError`; `telegramError` is the non-recoverable
protocol-level `TelegramError`; `unexpected` is the final generic
`Exception` clause (retried with the same linear back-off). -/
inductive SendOutcome where
  | success
  | timedOut
  | telegramError
  | unexpected
deriving DecidableEq

/-- `TelegramBot.MAX_RETRIES`. -/
def MAX_RETRIES : Nat := 5

/-- `TelegramBot.BACKOFF_MULTIPLIER` (seconds). -/
def BACKOFF_MULTIPLIER : Nat := 5

/-- Retryable outcome classes: the clauses of `_send_with_retry` that sleep
and go around the loop again rather than returning. -/
def isRecoverable : SendOutcome → Bool
  | .timedOut => true
  | .unexpected => true
  | _ => false

/-- Loop body of `_send_with_retry` from attempt index `attempt` with `fuel`
attempts still allowed.  Returns (result, attempts made, waits performed). -/
def sendWithRetryAux (send : Nat → SendOutcome) (attempt : Nat) :
    Nat → Bool × Nat × List Nat
  | 0 => (false, 0, [])
  | fuel + 1 =>
    match send attempt with
    | .success => (true, 1, [])
    | .telegramError => (false, 1, [])
    | .timedOut =>
      if fuel = 0 then (false, 1, [])
      else
        let r := sendWithRetryAux send (attempt + 1) fuel
        (r.1, r.2.1 + 1, BACKOFF_MULTIPLIER * (attempt + 1) :: r.2.2)
    | .unexpected =>
      if fuel = 0 then (false, 1, [])
      else
        let r := sendWithRetryAux send (attempt + 1) fuel
        (r.1, r.2.1 + 1, BACKOFF_MULTIPLIER * (attempt + 1) :: r.2.2)

/-- `TelegramBot._send_with_retry`: up to `MAX_RETRIES` attempts starting at
attempt 0. -/
def sendWithRetry (send : Nat → SendOutcome) : Bool × Nat × List Nat :=
  sendWithRetryAux send 0 MAX_RETRIES

/-! ## Extractor — embedding of `BandcampParser` (`src/parser.py`)

A parsed HTML anchor is modelled as a `Link` carrying the BeautifulSoup
accessors `_parse_release_link` uses: its `href`, its stripped visible text,
its parent element (with the `div`/`span` descendants and `img` looked up
there) and its own first `img`.  Element classes are carried already
lowered, as the code only ever inspects `str(elem.get('class', [])).lower()`.
Network access is an oracle `fetch` mapping a locator to the anchor list of
the returned document (or `none` when both transports fail).
-/

/-- A candidate release (`Release` dataclass in `parser.py`). -/
structure Release where
  url : String
  title : String
  artist : String
  tags : List String
  cover_url : Option String
  description : Option String
  release_date : Option Int
  location : Option String
deriving DecidableEq

/-- An `img` element: its `src` and `data-src` attributes. -/
structure Img where
  src : Option String
  dataSrc : Option String
deriving DecidableEq

/-- A `div`/`span` element under the anchor's parent:
`str(elem.get('class', [])).lower()` and `elem.get_text(strip=True)`. -/
structure Elem where
  cls : String
  text : String
deriving DecidableEq

/-- The anchor's parent element: its `div`/`span` descendants in document
order and its first `img` descendant. -/
structure Parent where
  elems : List Elem
  img : Option Img
deriving DecidableEq

/-- An HTML anchor as consumed by `_parse_release_link`. -/
structure Link where
  href : String
  text : String
  parent : Option Parent
  img : Option Img
deriving DecidableEq

/-- Python truthiness of an optional string: `None` and `""` are falsy. -/
def pyTruthy : Option String → Bool
  | none => false
  | some s => !s.data.isEmpty

/-- Python `a or b` where `a` is an optional string and `b` a string. -/
def pyOrStr (a : Option String) (b : String) : Option String :=
  if pyTruthy a then a else some b

/-- Python `a or b` on two optional strings. -/
def pyOrOpt (a b : Option String) : Option String :=
  if pyTruthy a then a else b

/-- One match of the regex `\s+by\s+` (case-insensitive) anchored at the
head of the character list; returns the remainder after the match.  The
greedy `\s+` runs need no backtracking because `\s` cannot match `b`. -/
def matchByAt (cs : List Char) : Option (List Char) :=
  if (cs.takeWhile isPySpace).isEmpty then none
  else
    match cs.dropWhile isPySpace with
    | b :: y :: rest2 =>
      if (b = 'b' || b = 'B') && (y = 'y' || y = 'Y') then
        if (rest2.takeWhile isPySpace).isEmpty then none
        else some (rest2.dropWhile isPySpace)
      else none
    | _ => none

/-- Scanner for `re.split(r'\s+by\s+', text, flags=re.IGNORECASE)`:
left-to-right, non-overlapping, leftmost matches.  `fuel` bounds the
recursion and never runs out when it starts at `cs.length`. -/
def reSplitByAux : Nat → List Char → List Char → List String
  | _, acc, [] => [String.mk acc.reverse]
  | 0, acc, cs => [String.mk (acc.reverse ++ cs)]
  | fuel + 1, acc, c :: cs =>
    match matchByAt (c :: cs) with
    | some rest => String.mk acc.reverse :: reSplitByAux fuel [] rest
    | none => reSplitByAux fuel (c :: acc) cs

/-- `re.split(r'\s+by\s+', text, flags=re.IGNORECASE)`. -/
def reSplitBy (s : String) : List String :=
  reSplitByAux s.data.length [] s.data

/-- Models `text.split('by')[0]`: the prefix before the first literal
(case-sensitive) occurrence of `"by"`. -/
def beforeBy : List Char → List Char
  | [] => []
  | c :: cs => if ['b', 'y'].isPrefixOf (c :: cs) then [] else c :: beforeBy cs

/-- One match of `https?://([^.]+)\.bandcamp\.com` anchored at the head of
the character list; returns the captured subdomain group. -/
def matchBandcampAt (cs : List Char) : Option (List Char) :=
  let after : Option (List Char) :=
    if ['h', 't', 't', 'p', 's', ':', '/', '/'].isPrefixOf cs then
      some (cs.drop 8)
    else if ['h', 't', 't', 'p', ':', '/', '/'].isPrefixOf cs then
      some (cs.drop 7)
    else none
  match after with
  | none => none
  | some rest =>
    let seg := rest.takeWhile (fun c => !(c = '.'))
    if seg.isEmpty then none
    else if (".bandcamp.com".data).isPrefixOf (rest.dropWhile (fun c => !(c = '.')))
    then some seg
    else none

/-- `re.search(r'https?://([^.]+)\.bandcamp\.com', url)`: try the pattern at
every start position, leftmost match wins. -/
def searchBandcamp : List Char → Option (List Char)
  | [] => none
  | c :: cs =>
    match matchBandcampAt (c :: cs) with
    | some seg => some seg
    | none => searchBandcamp cs

/-- Models Python `str.title()` (ASCII): uppercase each letter that follows
a non-letter, lowercase every other letter. -/
def titleCaseAux : Bool → List Char → List Char
  | _, [] => []
  | prevAlpha, c :: cs =>
    if c.isAlpha then
      (if prevAlpha then c.toLower else c.toUpper) :: titleCaseAux true cs
    else c :: titleCaseAux false cs

/-- Python `str.title()`. -/
def titleCase (s : String) : String :=
  String.mk (titleCaseAux false s.data)

/-- Models `urllib.parse.urljoin(base, href)` for the shapes this code
produces: an absolute `http(s)` base with no trailing slash (the
constructor does `base_url.rstrip('/')`) joined with a path-style href. -/
def urljoin (base href : String) : String :=
  if strStartsWith href "/" then base ++ href else base ++ "/" ++ href

/-- The `for elem in parent.find_all(['div', 'span'])` loop of
`_parse_release_link`: class hints fill a missing title/artist through
Python `or`. -/
def scanParentElems (elems : List Elem) (t a : Option String) :
    Option String × Option String :=
  elems.foldl (fun p e =>
    let t' :=
      if strContainsSub e.cls "title" || strContainsSub e.cls "name" then
        pyOrStr p.1 e.text
      else p.1
    let a' :=
      if strContainsSub e.cls "artist" || strContainsSub e.cls "by" then
        pyOrStr p.2 e.text
      else p.2
    (t', a')) (t, a)

/-- First stage of the title/artist resolution of `_parse_release_link`:
`if 'by' in text.lower():` split on `\s+by\s+`, and when at least two parts
result take the stripped first part as title and stripped last as artist. -/
def bySplitTA (text : String) : Option String × Option String :=
  if strContainsSub (lowerAscii text) "by" then
    let parts := reSplitBy text
    if 2 ≤ parts.length then
      (some (pyStrip (parts.headD "")), some (pyStrip (parts.getLastD "")))
    else (none, none)
  else (none, none)

/-- Second stage: `if not title or not artist:` walk the parent's
`div`/`span` elements for class hints. -/
def parentTA (link : Link) (ta : Option String × Option String) :
    Option String × Option String :=
  if !pyTruthy ta.1 || !pyTruthy ta.2 then
    match link.parent with
    | some p => scanParentElems p.elems ta.1 ta.2
    | none => ta
  else ta

/-- Title fallback: `if not title: title = text.split('by')[0].strip() if
'by' in text else text`. -/
def titleFallback (text : String) (t : Option String) : Option String :=
  if !pyTruthy t then
    some (if strContainsSub text "by" then
            pyStrip (String.mk (beforeBy text.data))
          else text)
  else t

/-- Artist fallback: `if not artist:` capture the bandcamp subdomain of the
release url, hyphens to spaces, title-cased; else `"Unknown Artist"`. -/
def artistFallback (release_url : String) (a : Option String) : Option String :=
  if !pyTruthy a then
    match searchBandcamp release_url.data with
    | some seg =>
      some (titleCase
        (String.mk (seg.map (fun c => if c = '-' then ' ' else c))))
    | none => some "Unknown Artist"
  else a

/-- Cover-image extraction of `_parse_release_link`: the anchor's own `img`
or else the parent's, its `src` or else `data-src`, absolutized against the
base when it is truthy and not already absolute. -/
def coverOf (base_url : String) (link : Link) : Option String :=
  let img : Option Img :=
    match link.img with
    | some i => some i
    | none =>
      match link.parent with
      | some p => p.img
      | none => none
  match img with
  | none => none
  | some i =>
    match pyOrOpt i.src i.dataSrc with
    | some cu =>
      if pyTruthy (some cu) && !strStartsWith cu "http" then
        some (urljoin base_url cu)
      else some cu
    | none => none

/-- `BandcampParser._parse_release_link`: normalize the href, resolve
title/artist through the staged precedence above, extract the cover;
`None` when the href is empty or the final title is falsy. -/
def parse_release_link (base_url : String) (link : Link) (tag : String) :
    Option Release :=
  if link.href.data.isEmpty then none
  else
    let href := beforeQuery link.href
    let release_url :=
      if strStartsWith href "http" then href else urljoin base_url href
    let ta := parentTA link (bySplitTA link.text)
    let title2 := titleFallback link.text ta.1
    let artist2 := artistFallback release_url ta.2
    if !pyTruthy title2 then none
    else
      some { url := release_url, title := title2.getD "",
             artist := artist2.getD "", tags := [tag],
             cover_url := coverOf base_url link,
             description := none, release_date := none, location := none }

/-- `tag_url = tag.replace(' ', '-')` composed with the f-string
`f"{self.base_url}/discover/{tag_url}?s=new"` of `get_releases_by_tag`. -/
def discover_url (base_url tag : String) : String :=
  base_url ++ "/discover/" ++ hyphenate tag ++ "?s=new"

/-- `soup.find_all('a', href=re.compile(r'/album/|/track/'))`: an anchor is
a candidate iff its href contains an album or track path segment. -/
def is_release_href (href : String) : Bool :=
  strContainsSub href "/album/" || strContainsSub href "/track/"

/-- One step of the `seen`-set deduplication loop of `get_releases_by_tag`:
keep the anchor when its query-stripped href is non-empty and unseen. -/
def dedupeStep (p : List String × List Link) (lnk : Link) :
    List String × List Link :=
  let href := beforeQuery lnk.href
  if !href.data.isEmpty && !p.1.contains href then (href :: p.1, p.2 ++ [lnk])
  else p

/-- In-document deduplication of anchors by query-stripped href. -/
def dedupeByHref (links : List Link) : List Link :=
  (links.foldl dedupeStep ([], [])).2

/-- `BandcampParser.get_releases_by_tag` over a fetch oracle: fetch the
discover page for the tag, filter anchors by the album/track href pattern,
deduplicate, and parse each anchor, skipping failures. -/
def get_releases_by_tag (fetch : String → Option (List Link))
    (base_url tag : String) : List Release :=
  match fetch (discover_url base_url tag) with
  | none => []
  | some anchors =>
    let unique := dedupeByHref (anchors.filter (fun l => is_release_href l.href))
    unique.filterMap (fun l => parse_release_link base_url l tag)

/-- Anchor fixture: `<a href="/album/x">Title by Artist</a>`. -/
def demoLink : Link where
  href := "/album/x"
  text := "Title by Artist"
  parent := none
  img := none

/-- The release parsed from `demoLink`. -/
def demoRel : Release where
  url := "https://bandcamp.com/album/x"
  title := "Title"
  artist := "Artist"
  tags := ["punk"]
  cover_url := none
  description := none
  release_date := none
  location := none

/-- A document oracle always returning the single anchor `demoLink`. -/
def demoFetch : String → Option (List Link) :=
  fun _ => some [demoLink]

/-! ## Orchestrator — embedding of `BandcampBot` (`src/main.py`)

The scheduled pass `run_parsing` is embedded over two oracles: `fetch`
(what `self.parser.get_releases_by_tag` returns for each tag) and `sendOk`
(whether `self.telegram.send_release` succeeds for a given release url —
the retry wrapper reduces a send to a boolean).  Besides the store, the
state records the url of every item-notification send call made
(`sendLog`) and every status message sent (`statusLog`), so that the
"number of channel sends" and "status message" claims are observable. -/

/-- Observable state of one scheduled pass. -/
structure BotState where
  db : Database
  sendLog : List String
  statusLog : List String
deriving DecidableEq

/-- `ParsingResult` dataclass of `main.py`. -/
structure ParsingResult where
  blacklisted : Nat
  sent : Nat
  failed : Nat
deriving DecidableEq

/-- `BandcampBot._process_release`: skip when the url exists; add; when
`send_to_telegram` send and mark on success, otherwise mark immediately
without any channel send (blacklist path). -/
def processRelease (sendOk : String → Bool) (now : Int) (st : BotState)
    (release : Release) (send_to_telegram : Bool) : BotState × Bool :=
  if st.db.release_exists release.url then (st, false)
  else
    let ab := st.db.add now release.url release.title release.artist
      (some release.tags) release.cover_url release.description
    if ab.2 = false then ({ st with db := ab.1 }, false)
    else if send_to_telegram then
      let st1 : BotState :=
        { st with db := ab.1, sendLog := st.sendLog ++ [release.url] }
      if sendOk release.url then
        ({ st1 with db := st1.db.mark_sent now release.url }, true)
      else (st1, false)
    else
      ({ st with db := (ab.1).mark_sent now release.url }, true)

/-- One iteration of the release loop in `_process_blacklist`
(`send_to_telegram=False`, count on success). -/
def blacklistStep (sendOk : String → Bool) (now : Int)
    (q : BotState × Nat) (rel : Release) : BotState × Nat :=
  let sr := processRelease sendOk now q.1 rel false
  (sr.1, if sr.2 then q.2 + 1 else q.2)

/-- `BandcampBot._process_blacklist`: for every blacklist tag in order,
fetch and process each release silently. -/
def processBlacklist (fetch : String → List Release) (sendOk : String → Bool)
    (now : Int) (st : BotState) (blacklist_tags : List String) :
    BotState × Nat :=
  blacklist_tags.foldl (fun p tag =>
    (fetch tag).foldl (blacklistStep sendOk now) p) (st, 0)

/-- One iteration of the release loop in `_process_main_tags`: skip on
dedupe hit; add (no description is passed there); send; on success mark
sent and count `sent`, otherwise count `failed` and leave the row pending. -/
def processMainTagStep (sendOk : String → Bool) (now : Int)
    (p : BotState × ParsingResult) (rel : Release) : BotState × ParsingResult :=
  if p.1.db.release_exists rel.url then p
  else
    let ab := p.1.db.add now rel.url rel.title rel.artist (some rel.tags)
      rel.cover_url none
    if ab.2 = false then ({ p.1 with db := ab.1 }, p.2)
    else
      let st1 : BotState :=
        { p.1 with db := ab.1, sendLog := p.1.sendLog ++ [rel.url] }
      if sendOk rel.url then
        ({ st1 with db := st1.db.mark_sent now rel.url },
         { p.2 with sent := p.2.sent + 1 })
      else (st1, { p.2 with failed := p.2.failed + 1 })

/-- `BandcampBot._process_main_tags`: for every watch tag in order, fetch
and process each release through the delivery channel. -/
def processMainTags (fetch : String → List Release) (sendOk : String → Bool)
    (now : Int) (st : BotState) (tags : List String) :
    BotState × ParsingResult :=
  tags.foldl (fun p tag => (fetch tag).foldl (processMainTagStep sendOk now) p)
    (st, { blacklisted := 0, sent := 0, failed := 0 })

/-- The summary text sent by `run_parsing` when `result.sent > 0`. -/
def statusMessage (sent : Nat) : String :=
  "✅ Found and sent " ++ toString sent ++ " new release(s)"

/-- The summary step of `run_parsing`: send one status message only when
`result.sent > 0`; a pass with zero sent items only logs. -/
def afterStatus (mt : BotState × ParsingResult) : BotState :=
  if 0 < mt.2.sent then
    { mt.1 with statusLog := mt.1.statusLog ++ [statusMessage mt.2.sent] }
  else mt.1

/-- The retention step of `run_parsing`: run `Database.cleanup` only when
`config.database.cleanup_days > 0`. -/
def afterCleanup (now cleanup_days : Int) (st : BotState) : BotState :=
  if 0 < cleanup_days then { st with db := (st.db.cleanup now cleanup_days).1 }
  else st

/-- `BandcampBot.run_parsing` (happy path of the `try` block): blacklist
tags, then watch tags, then the conditional summary message, then the
conditional retention sweep. -/
def runParsing (fetch : String → List Release) (sendOk : String → Bool)
    (now : Int) (st : BotState) (blacklist_tags tags : List String)
    (cleanup_days : Int) : BotState :=
  afterCleanup now cleanup_days
    (afterStatus (processMainTags fetch sendOk now
      (processBlacklist fetch sendOk now st blacklist_tags).1 tags))

/-- Number of item-notification send calls made for a url. -/
def sendCount (st : BotState) (u : String) : Nat :=
  st.sendLog.countP (fun s => s == u)

/-- The url is stored with `sent_at` set, in a row created at time `now`. -/
def storedDelivered (db : Database) (u : String) (now : Int) : Prop :=
  ∃ r ∈ db.releases, r.release_url = u ∧ r.sent_at.isSome = true ∧
    r.created_at = now

/-- A blacklist-tag release fixture. -/
def relAmbient : Release where
  url := "https://amb.bandcamp.com/album/a"
  title := "A"
  artist := "Amb"
  tags := ["ambient"]
  cover_url := none
  description := none
  release_date := none
  location := none

/-- The empty orchestrator state. -/
def stEmpty : BotState where
  db := dbEmpty
  sendLog := []
  statusLog := []

/-- A parser oracle returning the single ambient release for every tag. -/
def fetchAmbient : String → List Release :=
  fun _ => [relAmbient]

/-! ## Store lemmas -/

lemma release_exists_false_iff (db : Database) (url : String) :
    db.release_exists url = false ↔ ∀ r ∈ db.releases, r.release_url ≠ url := by
  simp [Database.release_exists]

lemma count_url_zero_of_not_exists (db : Database) (url : String)
    (h : db.release_exists url = false) : db.count_url url = 0 := by
  unfold Database.count_url
  rw [List.countP_eq_zero]
  intro r hr
  have := (release_exists_false_iff db url).mp h r hr
  simpa using this

lemma add_of_exists (db : Database) (now : Int) (url title artist : String)
    (tags : Option (List String)) (cover descr : Option String)
    (h : db.release_exists url = true) :
    db.add now url title artist tags cover descr = (db, false) := by
  simp [Database.add, h]

lemma add_of_new (db : Database) (now : Int) (url title artist : String)
    (tags : Option (List String)) (cover descr : Option String)
    (h : db.release_exists url = false) :
    db.add now url title artist tags cover descr =
      ({ releases := db.releases ++
          [mkRow db now url title artist tags cover descr],
         next_id := db.next_id + 1 }, true) := by
  simp [Database.add, h]

lemma mkRow_release_url (db : Database) (now : Int) (url title artist : String)
    (tags : Option (List String)) (cover descr : Option String) :
    (mkRow db now url title artist tags cover descr).release_url = url := rfl

lemma markUpd_release_url (t : Int) (url : String) (r : ReleaseRecord) :
    (markUpd t url r).release_url = r.release_url := by
  unfold markUpd
  split <;> rfl

lemma markUpd_created_at (t : Int) (url : String) (r : ReleaseRecord) :
    (markUpd t url r).created_at = r.created_at := by
  unfold markUpd
  split <;> rfl

lemma markUpd_of_ne (t : Int) (url : String) (r : ReleaseRecord)
    (h : r.release_url ≠ url) : markUpd t url r = r := by
  simp [markUpd, h]

lemma markUpd_of_eq (t : Int) (url : String) (r : ReleaseRecord)
    (h : r.release_url = url) : markUpd t url r = { r with sent_at := some t } := by
  simp [markUpd, h]

lemma markUpd_markUpd (t1 t2 : Int) (url : String) (r : ReleaseRecord) :
    markUpd t2 url (markUpd t1 url r) = markUpd t2 url r := by
  by_cases h : r.release_url = url
  · rw [markUpd_of_eq t1 url r h, markUpd_of_eq t2 url r h, markUpd_of_eq]
    exact h
  · rw [markUpd_of_ne t1 url r h]

lemma countP_url_map (l : List ReleaseRecord) (url : String)
    (f : ReleaseRecord → ReleaseRecord)
    (hf : ∀ r, (f r).release_url = r.release_url) :
    (l.map f).countP (fun r => r.release_url == url) =
      l.countP (fun r => r.release_url == url) := by
  induction l with
  | nil => rfl
  | cons x xs ih => simp [List.countP_cons, ih, hf]

lemma mem_insertByCreated (r a : ReleaseRecord) (l : List ReleaseRecord) :
    a ∈ insertByCreated r l ↔ a = r ∨ a ∈ l := by
  induction l with
  | nil => simp [insertByCreated]
  | cons x xs ih =>
    by_cases h : r.created_at < x.created_at
    · rw [insertByCreated, if_pos h]
      simp only [List.mem_cons]
    · rw [insertByCreated, if_neg h]
      simp only [List.mem_cons, ih]
      tauto

lemma sorted_insertByCreated (r : ReleaseRecord) (l : List ReleaseRecord)
    (hl : l.Pairwise (fun a b => a.created_at ≤ b.created_at)) :
    (insertByCreated r l).Pairwise (fun a b => a.created_at ≤ b.created_at) := by
  induction l with
  | nil => simp [insertByCreated]
  | cons x xs ih =>
    rcases List.pairwise_cons.mp hl with ⟨hx, hxs⟩
    by_cases h : r.created_at < x.created_at
    · rw [insertByCreated, if_pos h]
      refine List.pairwise_cons.mpr ⟨?_, hl⟩
      intro b hb
      rcases List.mem_cons.mp hb with hb | hb
      · subst hb
        exact le_of_lt h
      · exact le_trans (le_of_lt h) (hx b hb)
    · rw [insertByCreated, if_neg h]
      refine List.pairwise_cons.mpr ⟨?_, ih hxs⟩
      intro b hb
      rcases (mem_insertByCreated r b xs).mp hb with hb | hb
      · subst hb
        exact le_of_not_lt h
      · exact hx b hb

lemma mem_sortByCreated (a : ReleaseRecord) (l : List ReleaseRecord) :
    a ∈ sortByCreated l ↔ a ∈ l := by
  induction l with
  | nil => simp [sortByCreated]
  | cons x xs ih =>
    unfold sortByCreated at *
    simp only [List.foldr_cons]
    rw [mem_insertByCreated]
    simp only [List.mem_cons, ih]

lemma sorted_sortByCreated (l : List ReleaseRecord) :
    (sortByCreated l).Pairwise (fun a b => a.created_at ≤ b.created_at) := by
  induction l with
  | nil => simp [sortByCreated]
  | cons x xs ih =>
    unfold sortByCreated at *
    simp only [List.foldr_cons]
    exact sorted_insertByCreated x _ ih

/-! ## Claim theorems about the store -/

/-- Claim C1: `insert` returns `false` and leaves the store unchanged when a
row with the url is already present; otherwise it returns `true` and commits
exactly one new pending row; inserting the same url twice therefore yields
exactly one stored row for that url and the second call returns `false`. -/
theorem C1_insert_idempotent (db : Database) (t1 t2 : Int)
    (url title artist : String) (tags : Option (List String))
    (cover descr : Option String) :
    (db.release_exists url = true →
      db.add t1 url title artist tags cover descr = (db, false)) ∧
    (db.release_exists url = false →
      (db.add t1 url title artist tags cover descr).2 = true ∧
      (∃ nr : ReleaseRecord,
        (db.add t1 url title artist tags cover descr).1.releases =
          db.releases ++ [nr] ∧
        nr.release_url = url ∧ nr.created_at = t1 ∧ nr.sent_at = none) ∧
      (db.add t1 url title artist tags cover descr).1.count_url url = 1 ∧
      ((db.add t1 url title artist tags cover descr).1.add t2 url title artist
          tags cover descr) =
        ((db.add t1 url title artist tags cover descr).1, false)) := by
  constructor
  · intro h
    exact add_of_exists db t1 url title artist tags cover descr h
  · intro h
    have hc0 := count_url_zero_of_not_exists db url h
    rw [add_of_new db t1 url title artist tags cover descr h]
    refine ⟨rfl, ⟨mkRow db t1 url title artist tags cover descr, rfl, rfl, rfl, rfl⟩,
      ?_, ?_⟩
    · unfold Database.count_url at hc0 ⊢
      simp [List.countP_append, hc0, mkRow_release_url]
    · apply add_of_exists
      unfold Database.release_exists
      simp [mkRow_release_url]

/-- Witness for C1 at a concrete input: the empty store. -/
theorem C1_insert_idempotent_witness :
    (dbEmpty.add 3 "u" "t" "a" none none none).2 = true ∧
    (∃ nr : ReleaseRecord,
      (dbEmpty.add 3 "u" "t" "a" none none none).1.releases =
        dbEmpty.releases ++ [nr] ∧
      nr.release_url = "u" ∧ nr.created_at = 3 ∧ nr.sent_at = none) ∧
    (dbEmpty.add 3 "u" "t" "a" none none none).1.count_url "u" = 1 ∧
    ((dbEmpty.add 3 "u" "t" "a" none none none).1.add 7 "u" "t" "a" none none
        none) =
      ((dbEmpty.add 3 "u" "t" "a" none none none).1, false) :=
  (C1_insert_idempotent dbEmpty 3 7 "u" "t" "a" none none none).2 (by decide)

/-- Claim C2 counterexample: `mark_sent` carries no `sent_at IS NULL` guard,
so a second call overwrites `sent_at` with the later timestamp — the stored
value is not identical to the value after the first call. -/
theorem C2_counterexample :
    (∃ r ∈ (dbU.mark_sent 5 "u").releases,
      r.release_url = "u" ∧ r.sent_at = some 5) ∧
    (∀ r ∈ ((dbU.mark_sent 5 "u").mark_sent 9 "u").releases,
      r.release_url = "u" → r.sent_at ≠ some 5) := by
  decide

/-- Claim C2 (amended): `mark_sent` unconditionally overwrites `sent_at` with
the current time on every row carrying the url; two calls leave exactly the
original number of rows for the url, each with `sent_at` equal to the time of
the second call, and leave all other rows unchanged. -/
theorem C2_mark_sent_overwrites (db : Database) (t1 t2 : Int) (url : String) :
    (∀ r ∈ ((db.mark_sent t1 url).mark_sent t2 url).releases,
        r.release_url = url → r.sent_at = some t2) ∧
    (∀ r ∈ ((db.mark_sent t1 url).mark_sent t2 url).releases,
        r.release_url ≠ url → r ∈ db.releases) ∧
    ((db.mark_sent t1 url).mark_sent t2 url).count_url url = db.count_url url ∧
    ((db.mark_sent t1 url).mark_sent t2 url).releases.length =
      db.releases.length := by
  have hrel : ((db.mark_sent t1 url).mark_sent t2 url).releases =
      db.releases.map (markUpd t2 url) := by
    unfold Database.mark_sent
    simp only [List.map_map]
    apply List.map_congr_left
    intro r _
    exact markUpd_markUpd t1 t2 url r
  refine ⟨?_, ?_, ?_, ?_⟩
  · intro r hr hu
    rw [hrel] at hr
    rcases List.mem_map.mp hr with ⟨s, _, hrs⟩
    have hsurl : s.release_url = url := by
      rw [← hrs] at hu
      rwa [markUpd_release_url] at hu
    rw [← hrs, markUpd_of_eq t2 url s hsurl]
  · intro r hr hu
    rw [hrel] at hr
    rcases List.mem_map.mp hr with ⟨s, hs, hrs⟩
    have hsurl : s.release_url ≠ url := by
      rw [← hrs] at hu
      rwa [markUpd_release_url] at hu
    rwa [← hrs, markUpd_of_ne t2 url s hsurl]
  · unfold Database.count_url
    rw [hrel]
    exact countP_url_map db.releases url (markUpd t2 url)
      (markUpd_release_url t2 url)
  · rw [hrel, List.length_map]

/-- Witness for C2's amended theorem at a concrete store. -/
theorem C2_mark_sent_overwrites_witness :
    ∀ r ∈ ((dbU.mark_sent 5 "u").mark_sent 9 "u").releases,
      r.release_url = "u" → r.sent_at = some 9 :=
  (C2_mark_sent_overwrites dbU 5 9 "u").1

/-- Claim C5: `get_unsent_releases` returns exactly the rows whose `sent_at`
is `NULL`, in ascending `created_at` order, and never a delivered row. -/
theorem C5_list_pending (db : Database) :
    (∀ r : ReleaseRecord,
      r ∈ db.get_unsent_releases ↔ r ∈ db.releases ∧ r.sent_at = none) ∧
    db.get_unsent_releases.Pairwise (fun a b => a.created_at ≤ b.created_at) ∧
    (∀ r ∈ db.get_unsent_releases, r.sent_at.isSome = false) := by
  have hmem : ∀ r : ReleaseRecord,
      r ∈ db.get_unsent_releases ↔ r ∈ db.releases ∧ r.sent_at = none := by
    intro r
    unfold Database.get_unsent_releases
    rw [mem_sortByCreated, List.mem_filter]
    simp
  refine ⟨hmem, ?_, ?_⟩
  · unfold Database.get_unsent_releases
    exact sorted_sortByCreated _
  · intro r hr
    have := (hmem r).mp hr
    simp [this.2]

/-- Witness for C5 at a concrete store: the sent row is not pending. -/
theorem C5_list_pending_witness :
    rowSent ∉ dbSent.get_unsent_releases := by
  intro hmem
  have h := ((C5_list_pending dbSent).1 rowSent).mp hmem
  simpa [rowSent] using h.2

/-- Claim C7: for a positive retention age the sweep removes exactly the rows
with `created_at` older than `now − days` (whatever their `sent_at`), keeps
every other row, and returns the removed count; a non-positive age is a
no-op returning 0. -/
theorem C7_retention (db : Database) (now days : Int) :
    (0 < days →
      (∀ r ∈ db.releases, r.created_at < now - days * 86400 →
        r ∉ (db.cleanup now days).1.releases) ∧
      (∀ r ∈ db.releases, now - days * 86400 ≤ r.created_at →
        r ∈ (db.cleanup now days).1.releases) ∧
      (∀ r ∈ (db.cleanup now days).1.releases, r ∈ db.releases) ∧
      (db.cleanup now days).2 =
        db.releases.countP
          (fun r => decide (r.created_at < now - days * 86400))) ∧
    (days ≤ 0 → db.cleanup now days = (db, 0)) := by
  constructor
  · intro hd
    have hnd : ¬ days ≤ 0 := not_le.mpr hd
    unfold Database.cleanup
    rw [if_neg hnd]
    refine ⟨?_, ?_, ?_, rfl⟩
    · intro r _ hold hmem
      rcases List.mem_filter.mp hmem with ⟨_, hp⟩
      simp [hold] at hp
    · intro r hr hnew
      refine List.mem_filter.mpr ⟨hr, ?_⟩
      simp [not_lt.mpr hnew]
    · intro r hr
      exact (List.mem_filter.mp hr).1
  · intro hd
    unfold Database.cleanup
    rw [if_pos hd]

/-- Witness for C7 at a concrete store: an old sent row is removed, a new
pending row is kept; age 0 is a no-op. -/
theorem C7_retention_witness :
    rowOld ∉ (dbOldNew.cleanup 1000000 1).1.releases ∧
    rowNew ∈ (dbOldNew.cleanup 1000000 1).1.releases ∧
    dbOldNew.cleanup 1000000 0 = (dbOldNew, 0) := by
  refine ⟨?_, ?_, ?_⟩
  · exact ((C7_retention dbOldNew 1000000 1).1 (by decide)).1 rowOld
      (by decide) (by decide)
  · exact ((C7_retention dbOldNew 1000000 1).1 (by decide)).2.1 rowNew
      (by decide) (by decide)
  · exact (C7_retention dbOldNew 1000000 0).2 (by decide)

/-- Claim C10: `mark_sent` on a url with no matching row raises nothing and
leaves every row unchanged. -/
theorem C10_mark_sent_missing (db : Database) (now : Int) (url : String)
    (h : db.release_exists url = false) :
    db.mark_sent now url = db := by
  have hall := (release_exists_false_iff db url).mp h
  unfold Database.mark_sent
  have hmap : db.releases.map (markUpd now url) = db.releases := by
    have : db.releases.map (markUpd now url) = db.releases.map id :=
      List.map_congr_left (fun r hr => markUpd_of_ne now url r (hall r hr))
    rw [this, List.map_id]
  rw [hmap]

/-- Witness for C10: marking an absent url on a one-row store is the
identity. -/
theorem C10_mark_sent_missing_witness :
    dbU.mark_sent 5 "b" = dbU :=
  C10_mark_sent_missing dbU 5 "b" (by decide)

/-! ## Retry-wrapper lemmas -/

lemma sendWithRetryAux_success (send : Nat → SendOutcome) (attempt fuel : Nat)
    (h : send attempt = .success) :
    sendWithRetryAux send attempt (fuel + 1) = (true, 1, []) := by
  unfold sendWithRetryAux
  rw [h]

lemma sendWithRetryAux_telegramError (send : Nat → SendOutcome)
    (attempt fuel : Nat) (h : send attempt = .telegramError) :
    sendWithRetryAux send attempt (fuel + 1) = (false, 1, []) := by
  unfold sendWithRetryAux
  rw [h]

lemma sendWithRetryAux_recoverable_last (send : Nat → SendOutcome)
    (attempt : Nat) (h : isRecoverable (send attempt) = true) :
    sendWithRetryAux send attempt 1 = (false, 1, []) := by
  unfold sendWithRetryAux
  cases hs : send attempt <;> rw [hs] at h <;> simp [isRecoverable] at h <;> rfl

lemma sendWithRetryAux_recoverable_step (send : Nat → SendOutcome)
    (attempt fuel : Nat) (h : isRecoverable (send attempt) = true)
    (hf : fuel ≠ 0) :
    sendWithRetryAux send attempt (fuel + 1) =
      ((sendWithRetryAux send (attempt + 1) fuel).1,
       (sendWithRetryAux send (attempt + 1) fuel).2.1 + 1,
       BACKOFF_MULTIPLIER * (attempt + 1) ::
         (sendWithRetryAux send (attempt + 1) fuel).2.2) := by
  cases hs : send attempt <;> rw [hs] at h <;> simp [isRecoverable] at h
  · simp [sendWithRetryAux, hs, if_neg hf]
  · simp [sendWithRetryAux, hs, if_neg hf]

lemma sendWithRetryAux_attempts_le (send : Nat → SendOutcome) :
    ∀ fuel attempt, (sendWithRetryAux send attempt fuel).2.1 ≤ fuel := by
  intro fuel
  induction fuel with
  | zero => intro attempt; simp [sendWithRetryAux]
  | succ f ih =>
    intro attempt
    unfold sendWithRetryAux
    cases send attempt
    · simp
    · by_cases hf : f = 0
      · simp [hf]
      · rw [if_neg hf]
        simpa using Nat.succ_le_succ (ih (attempt + 1))
    · simp
    · by_cases hf : f = 0
      · simp [hf]
      · rw [if_neg hf]
        simpa using Nat.succ_le_succ (ih (attempt + 1))

lemma sendWithRetryAux_attempts_pos (send : Nat → SendOutcome)
    (fuel attempt : Nat) (hf : fuel ≠ 0) :
    1 ≤ (sendWithRetryAux send attempt fuel).2.1 := by
  cases fuel with
  | zero => exact absurd rfl hf
  | succ f =>
    unfold sendWithRetryAux
    cases send attempt
    · simp
    · by_cases hf' : f = 0
      · simp [hf']
      · rw [if_neg hf']
        simp
    · simp
    · by_cases hf' : f = 0
      · simp [hf']
      · rw [if_neg hf']
        simp

lemma sendWithRetryAux_waits (send : Nat → SendOutcome) :
    ∀ fuel attempt, (sendWithRetryAux send attempt fuel).2.2 =
      (List.range ((sendWithRetryAux send attempt fuel).2.1 - 1)).map
        (fun i => BACKOFF_MULTIPLIER * (attempt + i + 1)) := by
  intro fuel
  induction fuel with
  | zero => intro attempt; simp [sendWithRetryAux]
  | succ f ih =>
    intro attempt
    unfold sendWithRetryAux
    cases send attempt
    · simp
    · by_cases hf : f = 0
      · simp [hf]
      · rw [if_neg hf]
        have hpos := sendWithRetryAux_attempts_pos send f (attempt + 1) hf
        obtain ⟨m, hm⟩ : ∃ m, (sendWithRetryAux send (attempt + 1) f).2.1 = m + 1 :=
          ⟨(sendWithRetryAux send (attempt + 1) f).2.1 - 1, by omega⟩
        simp only [ih (attempt + 1), hm]
        simp only [Nat.add_sub_cancel, List.range_succ_eq_map, List.map_cons,
          List.map_map]
        simp only [List.cons.injEq]
        constructor
        · ring_nf
        · apply List.map_congr_left
          intro i _
          simp only [Function.comp_apply, Nat.succ_eq_add_one]
          ring_nf
    · simp
    · by_cases hf : f = 0
      · simp [hf]
      · rw [if_neg hf]
        have hpos := sendWithRetryAux_attempts_pos send f (attempt + 1) hf
        obtain ⟨m, hm⟩ : ∃ m, (sendWithRetryAux send (attempt + 1) f).2.1 = m + 1 :=
          ⟨(sendWithRetryAux send (attempt + 1) f).2.1 - 1, by omega⟩
        simp only [ih (attempt + 1), hm]
        simp only [Nat.add_sub_cancel, List.range_succ_eq_map, List.map_cons,
          List.map_map]
        simp only [List.cons.injEq]
        constructor
        · ring_nf
        · apply List.map_congr_left
          intro i _
          simp only [Function.comp_apply, Nat.succ_eq_add_one]
          ring_nf

lemma sendWithRetryAux_all_recoverable (send : Nat → SendOutcome) :
    ∀ fuel attempt, fuel ≠ 0 →
      (∀ i, attempt ≤ i → i < attempt + fuel → isRecoverable (send i) = true) →
      (sendWithRetryAux send attempt fuel).1 = false ∧
        (sendWithRetryAux send attempt fuel).2.1 = fuel := by
  intro fuel
  induction fuel with
  | zero => intro attempt h; exact absurd rfl h
  | succ f ih =>
    intro attempt _ h
    by_cases hf : f = 0
    · subst hf
      rw [sendWithRetryAux_recoverable_last send attempt
        (h attempt (le_refl attempt) (by omega))]
      exact ⟨rfl, rfl⟩
    · rw [sendWithRetryAux_recoverable_step send attempt f
        (h attempt (le_refl attempt) (by omega)) hf]
      have := ih (attempt + 1) hf (fun i hi hi' => h i (by omega) (by omega))
      exact ⟨this.1, by rw [this.2]⟩

lemma sendWithRetryAux_protocol (send : Nat → SendOutcome) :
    ∀ k fuel attempt, k < fuel →
      (∀ i, attempt ≤ i → i < attempt + k → isRecoverable (send i) = true) →
      send (attempt + k) = .telegramError →
      (sendWithRetryAux send attempt fuel).1 = false ∧
        (sendWithRetryAux send attempt fuel).2.1 = k + 1 := by
  intro k
  induction k with
  | zero =>
    intro fuel attempt hk _ hp
    cases fuel with
    | zero => omega
    | succ f =>
      rw [sendWithRetryAux_telegramError send attempt f (by simpa using hp)]
      exact ⟨rfl, rfl⟩
  | succ m ih =>
    intro fuel attempt hk h hp
    cases fuel with
    | zero => omega
    | succ f =>
      rw [sendWithRetryAux_recoverable_step send attempt f
        (h attempt (le_refl attempt) (by omega)) (by omega)]
      have := ih f (attempt + 1) (by omega)
        (fun i hi hi' => h i (by omega) (by omega))
        (by rw [show attempt + 1 + m = attempt + (m + 1) by omega]; exact hp)
      exact ⟨this.1, by rw [this.2]⟩

/-- Claim C6: `_send_with_retry` makes at most 5 attempts and returns a
boolean; a recoverable failure on attempt n (1-indexed) that is followed by
another attempt waits n × BACKOFF_MULTIPLIER seconds, so the performed waits
are exactly `[5, 10, ...]` and strictly increasing; all-recoverable runs
report `false` after the 5th attempt; recoverable failures on attempts 1–4
followed by success on attempt 5 yield `true` with exactly 5 attempts; a
protocol-level `TelegramError` aborts at its first occurrence with no
further attempts, in particular on attempt 1 with exactly 1 attempt. -/
theorem C6_send_retry (send : Nat → SendOutcome) :
    (sendWithRetry send).2.1 ≤ 5 ∧
    ((sendWithRetry send).2.2 =
      (List.range ((sendWithRetry send).2.1 - 1)).map
        (fun i => BACKOFF_MULTIPLIER * (i + 1))) ∧
    (sendWithRetry send).2.2.Pairwise (fun a b => a < b) ∧
    ((∀ i, i < 5 → isRecoverable (send i) = true) →
      sendWithRetry send = (false, 5, [5, 10, 15, 20])) ∧
    ((∀ i, i < 4 → send i = .timedOut) → send 4 = .success →
      sendWithRetry send = (true, 5, [5, 10, 15, 20])) ∧
    (send 0 = .telegramError → sendWithRetry send = (false, 1, [])) ∧
    (∀ k, k < 5 → (∀ i, i < k → isRecoverable (send i) = true) →
      send k = .telegramError →
      (sendWithRetry send).1 = false ∧ (sendWithRetry send).2.1 = k + 1) := by
  have hformula : (sendWithRetry send).2.2 =
      (List.range ((sendWithRetry send).2.1 - 1)).map
        (fun i => BACKOFF_MULTIPLIER * (i + 1)) := by
    unfold sendWithRetry
    rw [sendWithRetryAux_waits send MAX_RETRIES 0]
    apply List.map_congr_left
    intro i _
    ring_nf
  refine ⟨?_, hformula, ?_, ?_, ?_, ?_, ?_⟩
  · exact sendWithRetryAux_attempts_le send MAX_RETRIES 0
  · rw [hformula]
    refine List.Pairwise.map _ ?_ (List.pairwise_lt_range _)
    intro a b hab
    simp only [BACKOFF_MULTIPLIER]
    omega
  · intro h
    have hall := sendWithRetryAux_all_recoverable send MAX_RETRIES 0
      (by decide) (fun i _ hi => h i (by simpa [MAX_RETRIES] using hi))
    have heta : sendWithRetry send =
        ((sendWithRetry send).1, (sendWithRetry send).2.1,
          (sendWithRetry send).2.2) := rfl
    rw [heta, hformula]
    unfold sendWithRetry at hall ⊢
    rw [hall.1, hall.2]
    decide
  · intro h hs
    have h0 := h 0 (by omega)
    have h1 := h 1 (by omega)
    have h2 := h 2 (by omega)
    have h3 := h 3 (by omega)
    have e4 : sendWithRetryAux send 4 1 = (true, 1, []) :=
      sendWithRetryAux_success send 4 0 hs
    have e3 := sendWithRetryAux_recoverable_step send 3 1
      (by rw [h3]; rfl) (by omega)
    rw [e4] at e3
    have e2 := sendWithRetryAux_recoverable_step send 2 2
      (by rw [h2]; rfl) (by omega)
    rw [e3] at e2
    have e1 := sendWithRetryAux_recoverable_step send 1 3
      (by rw [h1]; rfl) (by omega)
    rw [e2] at e1
    have e0 := sendWithRetryAux_recoverable_step send 0 4
      (by rw [h0]; rfl) (by omega)
    rw [e1] at e0
    unfold sendWithRetry MAX_RETRIES
    rw [e0]
    simp [BACKOFF_MULTIPLIER]
  · intro h
    unfold sendWithRetry MAX_RETRIES
    exact sendWithRetryAux_telegramError send 0 4 h
  · intro k hk h hp
    exact sendWithRetryAux_protocol send k MAX_RETRIES 0
      (by simpa [MAX_RETRIES] using hk) (fun i hi hi' => h i (by omega))
      (by simpa using hp)

/-- Witness for C6 at concrete oracles: four timeouts then success, and a
protocol error on the first attempt. -/
theorem C6_send_retry_witness :
    sendWithRetry (fun i => if i < 4 then .timedOut else .success) =
      (true, 5, [5, 10, 15, 20]) ∧
    sendWithRetry (fun _ => .telegramError) = (false, 1, []) := by
  constructor
  · exact (C6_send_retry (fun i => if i < 4 then .timedOut else .success)).2.2.2.2.1
      (fun i hi => by simp [hi]) (by norm_num)
  · exact (C6_send_retry (fun _ => .telegramError)).2.2.2.2.2.1 rfl

/-! ## Extractor lemmas -/

lemma length_dropWhile_le (p : Char → Bool) (l : List Char) :
    (l.dropWhile p).length ≤ l.length := by
  induction l with
  | nil => simp
  | cons c cs ih =>
    rw [List.dropWhile_cons]
    split
    · exact Nat.le_succ_of_le ih
    · exact Nat.le_refl _

lemma matchByAt_length (cs rest : List Char) (h : matchByAt cs = some rest) :
    rest.length < cs.length := by
  unfold matchByAt at h
  by_cases h1 : (cs.takeWhile isPySpace).isEmpty
  · rw [if_pos h1] at h
    exact absurd h (by simp)
  · rw [if_neg h1] at h
    have hlen : cs.length =
        (cs.takeWhile isPySpace).length + (cs.dropWhile isPySpace).length := by
      conv_lhs => rw [← @List.takeWhile_append_dropWhile _ isPySpace cs]
      exact List.length_append _ _
    have htw : 0 < (cs.takeWhile isPySpace).length := by
      cases htw : cs.takeWhile isPySpace with
      | nil => rw [htw] at h1; simp at h1
      | cons a as => simp [htw]
    cases hdw : cs.dropWhile isPySpace with
    | nil => rw [hdw] at h; simp at h
    | cons b tail =>
      cases tail with
      | nil => rw [hdw] at h; simp at h
      | cons y rest2 =>
        rw [hdw] at h
        simp only at h
        by_cases hby : ((b = 'b' || b = 'B') && (y = 'y' || y = 'Y')) = true
        · rw [if_pos hby] at h
          by_cases hw2 : (rest2.takeWhile isPySpace).isEmpty
          · rw [if_pos hw2] at h
            exact absurd h (by simp)
          · rw [if_neg hw2] at h
            have hrest : rest = rest2.dropWhile isPySpace := by
              have := h
              simp at this
              exact this.symm
            have hle : (rest2.dropWhile isPySpace).length ≤ rest2.length :=
              length_dropWhile_le isPySpace rest2
            rw [hdw] at hlen
            simp only [List.length_cons] at hlen
            rw [hrest]
            omega
        · rw [if_neg hby] at h
          exact absurd h (by simp)

lemma listContainsSub_cons (pat : List Char) (c : Char) (cs : List Char)
    (h : listContainsSub pat cs = true) :
    listContainsSub pat (c :: cs) = true := by
  simp [listContainsSub, h]

lemma listContainsSub_append_left (pat t l : List Char)
    (h : listContainsSub pat l = true) :
    listContainsSub pat (t ++ l) = true := by
  induction t with
  | nil => simpa using h
  | cons c cs ih => simpa using listContainsSub_cons pat c (cs ++ l) ih

lemma matchByAt_contains_by (cs rest : List Char)
    (h : matchByAt cs = some rest) :
    listContainsSub ['b', 'y'] (cs.map Char.toLower) = true := by
  unfold matchByAt at h
  by_cases h1 : (cs.takeWhile isPySpace).isEmpty
  · rw [if_pos h1] at h
    exact absurd h (by simp)
  · rw [if_neg h1] at h
    cases hdw : cs.dropWhile isPySpace with
    | nil => rw [hdw] at h; simp at h
    | cons b tail =>
      cases tail with
      | nil => rw [hdw] at h; simp at h
      | cons y rest2 =>
        rw [hdw] at h
        simp only at h
        by_cases hby : ((b = 'b' || b = 'B') && (y = 'y' || y = 'Y')) = true
        · simp only [Bool.and_eq_true, Bool.or_eq_true, decide_eq_true_eq]
            at hby
          have hb : Char.toLower b = 'b' := by
            rcases hby.1 with rfl | rfl <;> decide
          have hy : Char.toLower y = 'y' := by
            rcases hby.2 with rfl | rfl <;> decide
          have hsuffix : listContainsSub ['b', 'y']
              ((b :: y :: rest2).map Char.toLower) = true := by
            simp [listContainsSub, List.isPrefixOf, hb, hy]
          have hcs : cs.map Char.toLower =
              (cs.takeWhile isPySpace).map Char.toLower ++
                (b :: y :: rest2).map Char.toLower := by
            rw [← hdw, ← List.map_append, List.takeWhile_append_dropWhile]
          rw [hcs]
          exact listContainsSub_append_left _ _ _ hsuffix
        · rw [if_neg hby] at h
          exact absurd h (by simp)

lemma reSplitByAux_two_parts :
    ∀ fuel acc cs, cs.length ≤ fuel →
      2 ≤ (reSplitByAux fuel acc cs).length →
      listContainsSub ['b', 'y'] (cs.map Char.toLower) = true := by
  intro fuel
  induction fuel with
  | zero =>
    intro acc cs hlen h2
    have hnil : cs = [] := List.eq_nil_of_length_eq_zero (Nat.le_zero.mp hlen)
    subst hnil
    simp [reSplitByAux] at h2
  | succ f ih =>
    intro acc cs hlen h2
    cases cs with
    | nil => simp [reSplitByAux] at h2
    | cons c cs' =>
      cases hm : matchByAt (c :: cs') with
      | some rest => exact matchByAt_contains_by _ _ hm
      | none =>
        simp only [reSplitByAux, hm] at h2
        have hlen' : cs'.length ≤ f := by
          simp only [List.length_cons] at hlen
          omega
        have hsub := ih (c :: acc) cs' hlen' h2
        simpa using listContainsSub_cons ['b', 'y'] c.toLower
          (cs'.map Char.toLower) hsub

lemma mem_dedupeFoldl (links : List Link) :
    ∀ p (l : Link), l ∈ (links.foldl dedupeStep p).2 → l ∈ p.2 ∨ l ∈ links := by
  induction links with
  | nil =>
    intro p l h
    exact Or.inl h
  | cons x xs ih =>
    intro p l h
    rw [List.foldl_cons] at h
    rcases ih (dedupeStep p x) l h with hin | hin
    · simp only [dedupeStep] at hin
      by_cases hc : (!(beforeQuery x.href).data.isEmpty &&
          !p.1.contains (beforeQuery x.href)) = true
      · rw [if_pos hc] at hin
        rcases List.mem_append.mp hin with hin | hin
        · exact Or.inl hin
        · simp only [List.mem_singleton] at hin
          subst hin
          exact Or.inr (List.mem_cons_self _ _)
      · rw [if_neg hc] at hin
        exact Or.inl hin
    · exact Or.inr (List.mem_cons_of_mem _ hin)

lemma mem_dedupeByHref (l : Link) (links : List Link)
    (h : l ∈ dedupeByHref links) : l ∈ links := by
  rcases mem_dedupeFoldl links ([], []) l h with h' | h'
  · simp at h'
  · exact h'

/-! ## Claim theorems about the extractor -/

lemma bySplitTA_of_split (text l r : String)
    (hsplit : reSplitBy text = [l, r]) :
    bySplitTA text = (some (pyStrip l), some (pyStrip r)) := by
  have hby : strContainsSub (lowerAscii text) "by" = true := by
    have hdata : ("by" : String).data = ['b', 'y'] := by decide
    show listContainsSub ("by" : String).data (lowerAscii text).data = true
    rw [hdata]
    show listContainsSub ['b', 'y'] (text.data.map Char.toLower) = true
    apply reSplitByAux_two_parts text.data.length [] text.data (Nat.le_refl _)
    unfold reSplitBy at hsplit
    rw [hsplit]
    simp
  unfold bySplitTA
  rw [if_pos hby]
  simp only [hsplit]
  norm_num

lemma parentTA_of_truthy (link : Link) (x y : String)
    (hx : pyTruthy (some x) = true) (hy : pyTruthy (some y) = true) :
    parentTA link (some x, some y) = (some x, some y) := by
  unfold parentTA
  have hc : (!pyTruthy (some x, some y).1 || !pyTruthy (some x, some y).2) =
      false := by
    simp only [hx, hy]
    rfl
  rw [hc]
  simp

lemma titleFallback_of_truthy (text : String) (x : String)
    (hx : pyTruthy (some x) = true) :
    titleFallback text (some x) = some x := by
  unfold titleFallback
  rw [hx]
  simp

lemma artistFallback_of_truthy (u : String) (y : String)
    (hy : pyTruthy (some y) = true) :
    artistFallback u (some y) = some y := by
  unfold artistFallback
  rw [hy]
  simp

/-- Claim C8: when the anchor's visible text splits on the case-insensitive
connective `by` into exactly two parts that strip to non-empty strings,
extraction yields the stripped left part as title and the stripped right
part as artist. -/
theorem C8_title_by_artist (base_url : String) (link : Link) (tag : String)
    (l r : String)
    (hhref : link.href.data.isEmpty = false)
    (hsplit : reSplitBy link.text = [l, r])
    (hl : (pyStrip l).data.isEmpty = false)
    (hr : (pyStrip r).data.isEmpty = false) :
    (parse_release_link base_url link tag).map Release.title =
      some (pyStrip l) ∧
    (parse_release_link base_url link tag).map Release.artist =
      some (pyStrip r) := by
  have hTl : pyTruthy (some (pyStrip l)) = true := by
    simp [pyTruthy, hl]
  have hTr : pyTruthy (some (pyStrip r)) = true := by
    simp [pyTruthy, hr]
  have hta : parentTA link (bySplitTA link.text) =
      (some (pyStrip l), some (pyStrip r)) := by
    rw [bySplitTA_of_split link.text l r hsplit]
    exact parentTA_of_truthy link _ _ hTl hTr
  unfold parse_release_link
  rw [hhref]
  simp only [Bool.false_eq_true, if_false, hta,
    titleFallback_of_truthy link.text _ hTl, artistFallback_of_truthy _ _ hTr,
    hTl, Bool.not_true, Option.getD_some]
  simp

/-- Witness for C8: the anchor `<a href="/album/x">Title by Artist</a>`
parses with title `"Title"` and artist `"Artist"`. -/
theorem C8_title_by_artist_witness :
    (parse_release_link "https://bandcamp.com" demoLink "punk").map
      Release.title = some (pyStrip "Title") ∧
    (parse_release_link "https://bandcamp.com" demoLink "punk").map
      Release.artist = some (pyStrip "Artist") :=
  C8_title_by_artist "https://bandcamp.com" demoLink "punk" "Title" "Artist"
    (by decide) (by decide) (by decide) (by decide)

/-- Claim C9 counterexample: the discover page is requested with the query
string `s=new`, not `sort=new` as the claim states. -/
theorem C9_counterexample :
    discover_url "https://bandcamp.com" "punk" =
      "https://bandcamp.com/discover/punk?s=new" ∧
    discover_url "https://bandcamp.com" "punk" ≠
      "https://bandcamp.com/discover/punk?sort=new" := by
  decide

/-- Claim C9 (amended): the document for a tag's cycle is fetched from
`{base}/discover/{tag with spaces replaced by hyphens}?s=new`, and every
returned release comes from an anchor of that document whose href contains
an album or track path segment. -/
theorem C9_fetch_locator (fetch : String → Option (List Link))
    (base_url tag : String) :
    discover_url base_url tag =
      base_url ++ "/discover/" ++ hyphenate tag ++ "?s=new" ∧
    ∀ rel ∈ get_releases_by_tag fetch base_url tag,
      ∃ doc lnk, fetch (discover_url base_url tag) = some doc ∧ lnk ∈ doc ∧
        (strContainsSub lnk.href "/album/" || strContainsSub lnk.href "/track/")
          = true ∧
        parse_release_link base_url lnk tag = some rel := by
  refine ⟨rfl, ?_⟩
  intro rel hrel
  unfold get_releases_by_tag at hrel
  cases hf : fetch (discover_url base_url tag) with
  | none =>
    rw [hf] at hrel
    simp at hrel
  | some anchors =>
    rw [hf] at hrel
    simp only at hrel
    rcases List.mem_filterMap.mp hrel with ⟨lnk, hmem, hparse⟩
    have h2 := mem_dedupeByHref lnk _ hmem
    rcases List.mem_filter.mp h2 with ⟨hdoc, hpred⟩
    exact ⟨anchors, lnk, rfl, hdoc, hpred, hparse⟩

/-- Witness for C9's amended theorem at a concrete one-anchor document. -/
theorem C9_fetch_locator_witness :
    ∃ doc lnk,
      demoFetch (discover_url "https://bandcamp.com" "punk") = some doc ∧
      lnk ∈ doc ∧
      (strContainsSub lnk.href "/album/" || strContainsSub lnk.href "/track/")
        = true ∧
      parse_release_link "https://bandcamp.com" lnk "punk" = some demoRel :=
  (C9_fetch_locator demoFetch "https://bandcamp.com" "punk").2 demoRel
    (by decide)

/-! ## Orchestrator lemmas -/

lemma release_exists_of_storedDelivered (db : Database) (u : String) (t : Int)
    (h : storedDelivered db u t) : db.release_exists u = true := by
  rcases h with ⟨r, hr, hu, _, _⟩
  unfold Database.release_exists
  rw [List.any_eq_true]
  exact ⟨r, hr, by simp [hu]⟩

lemma any_url_map_markUpd (l : List ReleaseRecord) (t : Int) (url u : String) :
    (l.map (markUpd t url)).any (fun r => r.release_url == u) =
      l.any (fun r => r.release_url == u) := by
  induction l with
  | nil => rfl
  | cons x xs ih => simp [List.any_cons, ih, markUpd_release_url]

lemma release_exists_mark_sent (db : Database) (t : Int) (url u : String) :
    (db.mark_sent t url).release_exists u = db.release_exists u :=
  any_url_map_markUpd db.releases t url u

lemma storedDelivered_add (db : Database) (u : String) (t now : Int)
    (url title artist : String) (tags : Option (List String))
    (cover descr : Option String) (h : storedDelivered db u t) :
    storedDelivered (db.add now url title artist tags cover descr).1 u t := by
  unfold Database.add
  split
  · exact h
  · rcases h with ⟨r, hr, hp⟩
    exact ⟨r, List.mem_append.mpr (Or.inl hr), hp⟩

lemma storedDelivered_mark_sent (db : Database) (u url : String) (t now : Int)
    (h : storedDelivered db u t) :
    storedDelivered (db.mark_sent now url) u t := by
  rcases h with ⟨r, hr, hu, hs, hc⟩
  refine ⟨markUpd now url r, List.mem_map_of_mem _ hr, ?_, ?_, ?_⟩
  · rw [markUpd_release_url]
    exact hu
  · unfold markUpd
    split
    · simp
    · exact hs
  · rw [markUpd_created_at]
    exact hc

lemma storedDelivered_cleanup (db : Database) (u : String) (now days : Int)
    (h : storedDelivered db u now) :
    storedDelivered (db.cleanup now days).1 u now := by
  unfold Database.cleanup
  by_cases hd : days ≤ 0
  · rw [if_pos hd]
    exact h
  · rw [if_neg hd]
    rcases h with ⟨r, hr, hu, hs, hc⟩
    refine ⟨r, List.mem_filter.mpr ⟨hr, ?_⟩, hu, hs, hc⟩
    have hdays : 0 < days := lt_of_not_le hd
    have hno : ¬ (r.created_at < now - days * 86400) := by
      rw [hc]
      omega
    simp [hno]

lemma afterCleanup_db_storedDelivered (now d : Int) (st : BotState)
    (u : String) (h : storedDelivered st.db u now) :
    storedDelivered (afterCleanup now d st).db u now := by
  unfold afterCleanup
  by_cases hd : 0 < d
  · rw [if_pos hd]
    exact storedDelivered_cleanup st.db u now d h
  · rw [if_neg hd]
    exact h

lemma afterCleanup_sendLog (now d : Int) (st : BotState) :
    (afterCleanup now d st).sendLog = st.sendLog := by
  unfold afterCleanup
  split <;> rfl

lemma afterCleanup_statusLog (now d : Int) (st : BotState) :
    (afterCleanup now d st).statusLog = st.statusLog := by
  unfold afterCleanup
  split <;> rfl

lemma afterStatus_db (mt : BotState × ParsingResult) :
    (afterStatus mt).db = mt.1.db := by
  unfold afterStatus
  split <;> rfl

lemma afterStatus_sendLog (mt : BotState × ParsingResult) :
    (afterStatus mt).sendLog = mt.1.sendLog := by
  unfold afterStatus
  split <;> rfl

lemma processRelease_statusLog (sendOk : String → Bool) (now : Int)
    (st : BotState) (rel : Release) (flag : Bool) :
    (processRelease sendOk now st rel flag).1.statusLog = st.statusLog := by
  simp only [processRelease]
  split
  · rfl
  · split
    · rfl
    · split
      · split <;> rfl
      · rfl

lemma processMainTagStep_statusLog (sendOk : String → Bool) (now : Int)
    (p : BotState × ParsingResult) (rel : Release) :
    (processMainTagStep sendOk now p rel).1.statusLog = p.1.statusLog := by
  simp only [processMainTagStep]
  split
  · rfl
  · split
    · rfl
    · split <;> rfl

lemma blacklist_fold_statusLog (sendOk : String → Bool) (now : Int) :
    ∀ (rels : List Release) (p : BotState × Nat),
      (rels.foldl (blacklistStep sendOk now) p).1.statusLog =
        p.1.statusLog := by
  intro rels
  induction rels with
  | nil => intro p; rfl
  | cons rel rels ih =>
    intro p
    rw [List.foldl_cons, ih]
    exact processRelease_statusLog sendOk now p.1 rel false

lemma processBlacklist_statusLog (fetch : String → List Release)
    (sendOk : String → Bool) (now : Int) :
    ∀ (tl : List String) (p : BotState × Nat),
      (tl.foldl (fun p tag => (fetch tag).foldl (blacklistStep sendOk now) p)
        p).1.statusLog = p.1.statusLog := by
  intro tl
  induction tl with
  | nil => intro p; rfl
  | cons tg tl ih =>
    intro p
    rw [List.foldl_cons, ih]
    exact blacklist_fold_statusLog sendOk now (fetch tg) p

lemma mainTags_fold_statusLog (sendOk : String → Bool) (now : Int) :
    ∀ (rels : List Release) (p : BotState × ParsingResult),
      (rels.foldl (processMainTagStep sendOk now) p).1.statusLog =
        p.1.statusLog := by
  intro rels
  induction rels with
  | nil => intro p; rfl
  | cons rel rels ih =>
    intro p
    rw [List.foldl_cons, ih]
    exact processMainTagStep_statusLog sendOk now p rel

lemma processMainTags_statusLog (fetch : String → List Release)
    (sendOk : String → Bool) (now : Int) :
    ∀ (tl : List String) (p : BotState × ParsingResult),
      (tl.foldl (fun p tag =>
          (fetch tag).foldl (processMainTagStep sendOk now) p) p).1.statusLog =
        p.1.statusLog := by
  intro tl
  induction tl with
  | nil => intro p; rfl
  | cons tg tl ih =>
    intro p
    rw [List.foldl_cons, ih]
    exact mainTags_fold_statusLog sendOk now (fetch tg) p

lemma processRelease_preserves (sendOk : String → Bool) (now t : Int)
    (st : BotState) (rel : Release) (flag : Bool) (u : String)
    (h : storedDelivered st.db u t) :
    storedDelivered (processRelease sendOk now st rel flag).1.db u t ∧
      sendCount (processRelease sendOk now st rel flag).1 u = sendCount st u := by
  simp only [processRelease]
  by_cases hex : st.db.release_exists rel.url = true
  · rw [if_pos hex]
    exact ⟨h, rfl⟩
  · rw [if_neg hex]
    have hexf : st.db.release_exists rel.url = false := eq_false_of_ne_true hex
    have hne : rel.url ≠ u := fun he =>
      hex (he ▸ release_exists_of_storedDelivered st.db u t h)
    have hab : (st.db.add now rel.url rel.title rel.artist (some rel.tags)
        rel.cover_url rel.description).2 = true := by
      rw [add_of_new _ _ _ _ _ _ _ _ hexf]
    have hab' : ¬ ((st.db.add now rel.url rel.title rel.artist (some rel.tags)
        rel.cover_url rel.description).2 = false) := by
      rw [hab]
      simp
    rw [if_neg hab']
    cases flag
    · have hff : ¬ ((false : Bool) = true) := by simp
      rw [if_neg hff]
      exact ⟨storedDelivered_mark_sent _ _ _ _ _
        (storedDelivered_add _ _ _ _ _ _ _ _ _ _ h), rfl⟩
    · rw [if_pos rfl]
      by_cases hs : sendOk rel.url = true
      · rw [if_pos hs]
        refine ⟨storedDelivered_mark_sent _ _ _ _ _
          (storedDelivered_add _ _ _ _ _ _ _ _ _ _ h), ?_⟩
        unfold sendCount
        rw [List.countP_append]
        simp [hne]
      · rw [if_neg hs]
        refine ⟨storedDelivered_add _ _ _ _ _ _ _ _ _ _ h, ?_⟩
        unfold sendCount
        rw [List.countP_append]
        simp [hne]

lemma processRelease_establish (sendOk : String → Bool) (now : Int)
    (st : BotState) (rel : Release)
    (hexf : st.db.release_exists rel.url = false) :
    storedDelivered (processRelease sendOk now st rel false).1.db rel.url now ∧
      (processRelease sendOk now st rel false).1.sendLog = st.sendLog := by
  simp only [processRelease]
  have hex' : ¬ (st.db.release_exists rel.url = true) := by
    rw [hexf]
    simp
  rw [if_neg hex']
  have hab : (st.db.add now rel.url rel.title rel.artist (some rel.tags)
      rel.cover_url rel.description).2 = true := by
    rw [add_of_new _ _ _ _ _ _ _ _ hexf]
  have hab' : ¬ ((st.db.add now rel.url rel.title rel.artist (some rel.tags)
      rel.cover_url rel.description).2 = false) := by
    rw [hab]
    simp
  rw [if_neg hab']
  have hff : ¬ ((false : Bool) = true) := by simp
  rw [if_neg hff]
  refine ⟨?_, rfl⟩
  have hrow : mkRow st.db now rel.url rel.title rel.artist (some rel.tags)
      rel.cover_url rel.description ∈
      (st.db.add now rel.url rel.title rel.artist (some rel.tags)
        rel.cover_url rel.description).1.releases := by
    rw [add_of_new _ _ _ _ _ _ _ _ hexf]
    exact List.mem_append.mpr (Or.inr (List.mem_singleton.mpr rfl))
  refine ⟨markUpd now rel.url (mkRow st.db now rel.url rel.title rel.artist
    (some rel.tags) rel.cover_url rel.description),
    List.mem_map_of_mem _ hrow, ?_, ?_, ?_⟩
  · rw [markUpd_release_url, mkRow_release_url]
  · rw [markUpd_of_eq _ _ _ (mkRow_release_url _ _ _ _ _ _ _ _)]
    rfl
  · rw [markUpd_created_at]
    rfl

lemma processRelease_not_mem (sendOk : String → Bool) (now : Int)
    (st : BotState) (rel : Release) (u : String)
    (hne : rel.url ≠ u) (h : st.db.release_exists u = false) :
    (processRelease sendOk now st rel false).1.db.release_exists u = false ∧
      (processRelease sendOk now st rel false).1.sendLog = st.sendLog := by
  simp only [processRelease]
  by_cases hex : st.db.release_exists rel.url = true
  · rw [if_pos hex]
    exact ⟨h, rfl⟩
  · rw [if_neg hex]
    have hexf : st.db.release_exists rel.url = false := eq_false_of_ne_true hex
    have hab : (st.db.add now rel.url rel.title rel.artist (some rel.tags)
        rel.cover_url rel.description).2 = true := by
      rw [add_of_new _ _ _ _ _ _ _ _ hexf]
    have hab' : ¬ ((st.db.add now rel.url rel.title rel.artist (some rel.tags)
        rel.cover_url rel.description).2 = false) := by
      rw [hab]
      simp
    rw [if_neg hab']
    have hff : ¬ ((false : Bool) = true) := by simp
    rw [if_neg hff]
    have hadd_ex : (st.db.add now rel.url rel.title rel.artist (some rel.tags)
        rel.cover_url rel.description).1.release_exists u = false := by
      rw [add_of_new _ _ _ _ _ _ _ _ hexf]
      unfold Database.release_exists at h ⊢
      rw [List.any_append, h]
      simp [List.any_cons, mkRow_release_url, hne]
    refine ⟨?_, rfl⟩
    rw [release_exists_mark_sent]
    exact hadd_ex

lemma blacklist_fold_preserves (sendOk : String → Bool) (now t : Int)
    (u : String) :
    ∀ (rels : List Release) (p : BotState × Nat),
      storedDelivered p.1.db u t →
      storedDelivered ((rels.foldl (blacklistStep sendOk now) p).1).db u t ∧
        sendCount (rels.foldl (blacklistStep sendOk now) p).1 u =
          sendCount p.1 u := by
  intro rels
  induction rels with
  | nil => intro p h; exact ⟨h, rfl⟩
  | cons rel rels ih =>
    intro p h
    rw [List.foldl_cons]
    have hstep := processRelease_preserves sendOk now t p.1 rel false u h
    rcases ih (blacklistStep sendOk now p rel) hstep.1 with ⟨h1, h2⟩
    exact ⟨h1, by rw [h2]; exact hstep.2⟩

lemma blacklist_tags_fold_preserves (fetch : String → List Release)
    (sendOk : String → Bool) (now t : Int) (u : String) :
    ∀ (tl : List String) (p : BotState × Nat),
      storedDelivered p.1.db u t →
      storedDelivered ((tl.foldl (fun p tag =>
          (fetch tag).foldl (blacklistStep sendOk now) p) p).1).db u t ∧
        sendCount (tl.foldl (fun p tag =>
          (fetch tag).foldl (blacklistStep sendOk now) p) p).1 u =
          sendCount p.1 u := by
  intro tl
  induction tl with
  | nil => intro p h; exact ⟨h, rfl⟩
  | cons tg tl ih =>
    intro p h
    rw [List.foldl_cons]
    have hstep := blacklist_fold_preserves sendOk now t u (fetch tg) p h
    rcases ih _ hstep.1 with ⟨h1, h2⟩
    exact ⟨h1, by rw [h2]; exact hstep.2⟩

lemma blacklist_fold_not_mem (sendOk : String → Bool) (now : Int)
    (u : String) :
    ∀ (rels : List Release) (p : BotState × Nat),
      u ∉ rels.map Release.url →
      p.1.db.release_exists u = false →
      (rels.foldl (blacklistStep sendOk now) p).1.db.release_exists u = false ∧
        sendCount (rels.foldl (blacklistStep sendOk now) p).1 u =
          sendCount p.1 u := by
  intro rels
  induction rels with
  | nil => intro p _ h; exact ⟨h, rfl⟩
  | cons rel rels ih =>
    intro p hmem h
    rw [List.foldl_cons]
    have hne : rel.url ≠ u := by
      intro he
      exact hmem (by rw [List.map_cons]; exact List.mem_cons.mpr (Or.inl he.symm))
    have hmem' : u ∉ rels.map Release.url := fun hm =>
      hmem (by rw [List.map_cons]; exact List.mem_cons.mpr (Or.inr hm))
    have hstep := processRelease_not_mem sendOk now p.1 rel u hne h
    rcases ih (blacklistStep sendOk now p rel) hmem' hstep.1 with ⟨h1, h2⟩
    refine ⟨h1, ?_⟩
    rw [h2]
    show sendCount (processRelease sendOk now p.1 rel false).1 u = sendCount p.1 u
    unfold sendCount
    rw [hstep.2]

lemma blacklist_fold_establish (sendOk : String → Bool) (now : Int)
    (u : String) :
    ∀ (rels : List Release) (p : BotState × Nat),
      u ∈ rels.map Release.url →
      p.1.db.release_exists u = false →
      storedDelivered ((rels.foldl (blacklistStep sendOk now) p).1).db u now ∧
        sendCount (rels.foldl (blacklistStep sendOk now) p).1 u =
          sendCount p.1 u := by
  intro rels
  induction rels with
  | nil => intro p hmem _; simp at hmem
  | cons rel rels ih =>
    intro p hmem h
    rw [List.foldl_cons]
    by_cases he : rel.url = u
    · have hexf : p.1.db.release_exists rel.url = false := by
        rw [he]
        exact h
      have hest := processRelease_establish sendOk now p.1 rel hexf
      have hest' : storedDelivered (blacklistStep sendOk now p rel).1.db u now := by
        rw [← he]
        exact hest.1
      rcases blacklist_fold_preserves sendOk now now u rels
        (blacklistStep sendOk now p rel) hest' with ⟨h1, h2⟩
      refine ⟨h1, ?_⟩
      rw [h2]
      show sendCount (processRelease sendOk now p.1 rel false).1 u =
        sendCount p.1 u
      unfold sendCount
      rw [hest.2]
    · rw [List.map_cons] at hmem
      rcases List.mem_cons.mp hmem with h' | h'
      · exact absurd h'.symm he
      · have hstep := processRelease_not_mem sendOk now p.1 rel u he h
        rcases ih (blacklistStep sendOk now p rel) h' hstep.1 with ⟨h1, h2⟩
        refine ⟨h1, ?_⟩
        rw [h2]
        show sendCount (processRelease sendOk now p.1 rel false).1 u =
          sendCount p.1 u
        unfold sendCount
        rw [hstep.2]

lemma processBlacklist_establish (fetch : String → List Release)
    (sendOk : String → Bool) (now : Int) (u : String) :
    ∀ (tl : List String) (p : BotState × Nat),
      u ∈ (tl.flatMap fetch).map Release.url →
      p.1.db.release_exists u = false →
      storedDelivered ((tl.foldl (fun p tag =>
          (fetch tag).foldl (blacklistStep sendOk now) p) p).1).db u now ∧
        sendCount (tl.foldl (fun p tag =>
          (fetch tag).foldl (blacklistStep sendOk now) p) p).1 u =
          sendCount p.1 u := by
  intro tl
  induction tl with
  | nil => intro p hmem _; simp at hmem
  | cons tg tl ih =>
    intro p hmem h
    rw [List.foldl_cons]
    by_cases hin : u ∈ (fetch tg).map Release.url
    · have hest := blacklist_fold_establish sendOk now u (fetch tg) p hin h
      rcases blacklist_tags_fold_preserves fetch sendOk now now u tl _
        hest.1 with ⟨h1, h2⟩
      exact ⟨h1, by rw [h2]; exact hest.2⟩
    · have hmem' : u ∈ (tl.flatMap fetch).map Release.url := by
        rw [List.flatMap_cons, List.map_append] at hmem
        rcases List.mem_append.mp hmem with h' | h'
        · exact absurd h' hin
        · exact h'
      have hstep := blacklist_fold_not_mem sendOk now u (fetch tg) p hin h
      rcases ih _ hmem' hstep.1 with ⟨h1, h2⟩
      exact ⟨h1, by rw [h2]; exact hstep.2⟩

lemma processMainTagStep_preserves (sendOk : String → Bool) (now t : Int)
    (u : String) (p : BotState × ParsingResult) (rel : Release)
    (h : storedDelivered p.1.db u t) :
    storedDelivered (processMainTagStep sendOk now p rel).1.db u t ∧
      sendCount (processMainTagStep sendOk now p rel).1 u =
        sendCount p.1 u := by
  simp only [processMainTagStep]
  by_cases hex : p.1.db.release_exists rel.url = true
  · rw [if_pos hex]
    exact ⟨h, rfl⟩
  · rw [if_neg hex]
    have hexf : p.1.db.release_exists rel.url = false := eq_false_of_ne_true hex
    have hne : rel.url ≠ u := fun he =>
      hex (he ▸ release_exists_of_storedDelivered p.1.db u t h)
    have hab : (p.1.db.add now rel.url rel.title rel.artist (some rel.tags)
        rel.cover_url none).2 = true := by
      rw [add_of_new _ _ _ _ _ _ _ _ hexf]
    have hab' : ¬ ((p.1.db.add now rel.url rel.title rel.artist (some rel.tags)
        rel.cover_url none).2 = false) := by
      rw [hab]
      simp
    rw [if_neg hab']
    by_cases hs : sendOk rel.url = true
    · rw [if_pos hs]
      refine ⟨storedDelivered_mark_sent _ _ _ _ _
        (storedDelivered_add _ _ _ _ _ _ _ _ _ _ h), ?_⟩
      unfold sendCount
      rw [List.countP_append]
      simp [hne]
    · rw [if_neg hs]
      refine ⟨storedDelivered_add _ _ _ _ _ _ _ _ _ _ h, ?_⟩
      unfold sendCount
      rw [List.countP_append]
      simp [hne]

lemma mainTags_fold_preserves (sendOk : String → Bool) (now t : Int)
    (u : String) :
    ∀ (rels : List Release) (p : BotState × ParsingResult),
      storedDelivered p.1.db u t →
      storedDelivered ((rels.foldl (processMainTagStep sendOk now) p).1).db u t ∧
        sendCount (rels.foldl (processMainTagStep sendOk now) p).1 u =
          sendCount p.1 u := by
  intro rels
  induction rels with
  | nil => intro p h; exact ⟨h, rfl⟩
  | cons rel rels ih =>
    intro p h
    rw [List.foldl_cons]
    have hstep := processMainTagStep_preserves sendOk now t u p rel h
    rcases ih (processMainTagStep sendOk now p rel) hstep.1 with ⟨h1, h2⟩
    exact ⟨h1, by rw [h2]; exact hstep.2⟩

lemma processMainTags_preserves (fetch : String → List Release)
    (sendOk : String → Bool) (now t : Int) (u : String) :
    ∀ (tl : List String) (p : BotState × ParsingResult),
      storedDelivered p.1.db u t →
      storedDelivered ((tl.foldl (fun p tag =>
          (fetch tag).foldl (processMainTagStep sendOk now) p) p).1).db u t ∧
        sendCount (tl.foldl (fun p tag =>
          (fetch tag).foldl (processMainTagStep sendOk now) p) p).1 u =
          sendCount p.1 u := by
  intro tl
  induction tl with
  | nil => intro p h; exact ⟨h, rfl⟩
  | cons tg tl ih =>
    intro p h
    rw [List.foldl_cons]
    have hstep := mainTags_fold_preserves sendOk now t u (fetch tg) p h
    rcases ih _ hstep.1 with ⟨h1, h2⟩
    exact ⟨h1, by rw [h2]; exact hstep.2⟩

/-! ## Claim theorems about the orchestrator -/

/-- Claim C3: a blacklist-tag item whose url is a dedupe miss at the start
of the scheduled pass ends the pass stored with `sent_at` set, and zero
delivery-channel send calls are made for that url during the pass. -/
theorem C3_blacklist_suppressed (fetch : String → List Release)
    (sendOk : String → Bool) (now : Int) (st : BotState)
    (blacklist_tags tags : List String) (cleanup_days : Int) (u : String)
    (hmem : u ∈ (blacklist_tags.flatMap fetch).map Release.url)
    (hnew : st.db.release_exists u = false) :
    storedDelivered
      (runParsing fetch sendOk now st blacklist_tags tags cleanup_days).db
      u now ∧
    sendCount
      (runParsing fetch sendOk now st blacklist_tags tags cleanup_days) u =
      sendCount st u := by
  have hbl := processBlacklist_establish fetch sendOk now u blacklist_tags
    (st, 0) hmem hnew
  have hmt := processMainTags_preserves fetch sendOk now now u tags
    ((processBlacklist fetch sendOk now st blacklist_tags).1,
      { blacklisted := 0, sent := 0, failed := 0 }) hbl.1
  unfold runParsing
  constructor
  · apply afterCleanup_db_storedDelivered
    rw [afterStatus_db]
    exact hmt.1
  · unfold sendCount
    rw [afterCleanup_sendLog, afterStatus_sendLog]
    show sendCount (processMainTags fetch sendOk now
      (processBlacklist fetch sendOk now st blacklist_tags).1 tags).1 u =
      sendCount st u
    have h2 := hmt.2
    unfold processMainTags
    rw [h2]
    exact hbl.2

/-- Witness for C3: a fresh ambient item on a blacklist pass ends stored
with `sent_at` set and with no channel send for it. -/
theorem C3_blacklist_suppressed_witness :
    storedDelivered
      (runParsing fetchAmbient (fun _ => true) 0 stEmpty ["ambient"] ["punk"]
        0).db "https://amb.bandcamp.com/album/a" 0 ∧
    sendCount
      (runParsing fetchAmbient (fun _ => true) 0 stEmpty ["ambient"] ["punk"]
        0) "https://amb.bandcamp.com/album/a" =
      sendCount stEmpty "https://amb.bandcamp.com/album/a" :=
  C3_blacklist_suppressed fetchAmbient (fun _ => true) 0 stEmpty ["ambient"]
    ["punk"] 0 "https://amb.bandcamp.com/album/a" (by decide) (by decide)

/-- Claim C4 counterexample: a pass that finds nothing new sends no status
message at all — not a "nothing new" status — so the number of status
messages sent is 0, not 1. -/
theorem C4_counterexample :
    (runParsing (fun _ => []) (fun _ => true) 0 stEmpty [] ["punk"]
      0).statusLog.length ≠ 1 := by
  decide

/-- Claim C4 (amended): after all tags are processed, `run_parsing` sends
exactly one status message reporting the count of newly delivered watch-tag
items when that count is positive, and sends no status message at all when
the count is zero (it only logs). -/
theorem C4_status_message (fetch : String → List Release)
    (sendOk : String → Bool) (now : Int) (st : BotState)
    (blacklist_tags tags : List String) (cleanup_days : Int) :
    (0 < (processMainTags fetch sendOk now
        (processBlacklist fetch sendOk now st blacklist_tags).1 tags).2.sent →
      (runParsing fetch sendOk now st blacklist_tags tags
          cleanup_days).statusLog =
        st.statusLog ++ [statusMessage (processMainTags fetch sendOk now
          (processBlacklist fetch sendOk now st blacklist_tags).1
          tags).2.sent]) ∧
    ((processMainTags fetch sendOk now
        (processBlacklist fetch sendOk now st blacklist_tags).1 tags).2.sent =
          0 →
      (runParsing fetch sendOk now st blacklist_tags tags
          cleanup_days).statusLog = st.statusLog) := by
  have hbl : (processBlacklist fetch sendOk now st blacklist_tags).1.statusLog =
      st.statusLog :=
    processBlacklist_statusLog fetch sendOk now blacklist_tags (st, 0)
  have hmt : (processMainTags fetch sendOk now
      (processBlacklist fetch sendOk now st blacklist_tags).1 tags).1.statusLog =
      (processBlacklist fetch sendOk now st blacklist_tags).1.statusLog :=
    processMainTags_statusLog fetch sendOk now tags _
  constructor
  · intro hpos
    unfold runParsing
    rw [afterCleanup_statusLog]
    unfold afterStatus
    rw [if_pos hpos, hmt, hbl]
  · intro hzero
    unfold runParsing
    rw [afterCleanup_statusLog]
    unfold afterStatus
    have hneg : ¬ 0 < (processMainTags fetch sendOk now
        (processBlacklist fetch sendOk now st blacklist_tags).1 tags).2.sent := by
      rw [hzero]
      exact lt_irrefl 0
    rw [if_neg hneg, hmt, hbl]

/-- Witness for C4's amended theorem: a pass that finds nothing leaves the
status log unchanged. -/
theorem C4_status_message_witness :
    (runParsing (fun _ => []) (fun _ => true) 0 stEmpty [] ["punk"]
      0).statusLog = stEmpty.statusLog :=
  (C4_status_message (fun _ => []) (fun _ => true) 0 stEmpty [] ["punk"] 0).2
    (by decide)
